import Mathlib

/-!
Shallow embedding of the conventional-commits parser (src/src/lib.rs):
a lexer that turns one commit-message string into a token sequence and a
parser that folds the sequence into a record. A Rust `String` is modelled
as a `List Char`; the lexer's `&mut self` methods become functions from a
`Lexer` state to a result paired with the updated state. Byte-level
operations of the source (`self.input[self.position..]`,
`remaining_input.len()`) are modelled over the UTF-8 byte lengths of the
characters, so the source's mixing of the character-counting cursor with
byte indexing is visible in the model: a slice off a character boundary
(a Rust panic) is the `none` outcome.
-/

deriving instance DecidableEq for Except

/-- Character class of Rust `char::is_whitespace`: the Unicode White_Space
property, a fixed list of code points reproduced here in full. -/
def char_is_whitespace (c : Char) : Bool :=
  (9 ≤ c.toNat && c.toNat ≤ 13) || c.toNat = 32 || c.toNat = 133 ||
  c.toNat = 160 || c.toNat = 5760 || (8192 ≤ c.toNat && c.toNat ≤ 8202) ||
  c.toNat = 8232 || c.toNat = 8233 || c.toNat = 8239 || c.toNat = 8287 ||
  c.toNat = 12288

/-- Character class of Rust `char::is_alphanumeric` (Alphabetic or Number).
The full Unicode tables are not reproduced: beyond ASCII this model
classifies no character as alphanumeric. Every theorem below either
quantifies over this model's class or evaluates it on ASCII commit types;
the positions where the concrete non-ASCII inputs of this development
occur are scanned by the source character by character with no class
check. -/
def char_is_alphanumeric (c : Char) : Bool :=
  (97 ≤ c.toNat && c.toNat ≤ 122) || (65 ≤ c.toNat && c.toNat ≤ 90) ||
  (48 ≤ c.toNat && c.toNat ≤ 57)

/-- Rust `char::len_utf8`: how many bytes the character occupies in the
UTF-8 encoding of the input string. -/
def len_utf8 (c : Char) : Nat :=
  if c.toNat < 128 then 1
  else if c.toNat < 2048 then 2
  else if c.toNat < 65536 then 3
  else 4

/-- Rust `String::len`: the byte length of the UTF-8 encoding. -/
def byteLen : List Char → Nat
  | [] => 0
  | c :: s => len_utf8 c + byteLen s

/-- Rust `&s[n..]`: drop `n` bytes from the front of the string. Defined
(`some`) exactly when `n` falls on a character boundary of the UTF-8
encoding and is at most the byte length; otherwise the Rust program
panics, modelled as `none`. -/
def byteDrop : List Char → Nat → Option (List Char)
  | s, 0 => some s
  | [], _ + 1 => none
  | c :: s, n + 1 => if len_utf8 c ≤ n + 1 then byteDrop s (n + 1 - len_utf8 c) else none

/-- Rust `str::find(pat)`: the position of the first occurrence of `pat`
as a substring, `none` when it does not occur. The source receives a byte
offset; because every marker searched for is pure ASCII, and in UTF-8 an
ASCII byte never occurs inside the encoding of another character, the
byte offsets Rust returns and the character positions returned here
identify the same occurrences in the same order, and the split below cuts
the same text. -/
def findSub : List Char → List Char → Option Nat
  | [], pat => if pat = [] then some 0 else none
  | c :: s, pat => if pat.isPrefixOf (c :: s) then some 0 else (findSub s pat).map (· + 1)

/-- Rust `str::trim`: remove leading and trailing White_Space characters. -/
def trim (s : List Char) : List Char :=
  ((s.dropWhile char_is_whitespace).reverse.dropWhile char_is_whitespace).reverse

/-- Footer marker "BREAKING CHANGE:" of lex_body_and_footer. -/
def markerBreakingChange : List Char := ("BREAKING CHANGE:").toList

/-- Footer marker "Reviewed-by:" of lex_body_and_footer. -/
def markerReviewedBy : List Char := ("Reviewed-by:").toList

/-- Footer marker "Refs:" of lex_body_and_footer. -/
def markerRefs : List Char := ("Refs:").toList

/-- enum Token: the components of a conventional commit message. -/
inductive Token where
  | CommitType (text : List Char)
  | Scope (text : List Char)
  | BreakingChangeMarker
  | Description (text : List Char)
  | Body (text : List Char)
  | Footer (text : List Char)
deriving DecidableEq

/-- struct ConventionalCommit: a parsed conventional commit. -/
structure ConventionalCommit where
  commit_type : List Char
  scope : Option (List Char)
  breaking_change : Bool
  description : List Char
  body : Option (List Char)
  footer : Option (List Char)
deriving DecidableEq

/-- struct Lexer: the input string and the scan cursor. The source
advances `position` once per character consumed but also uses it as a
byte index; the model keeps that single counter. -/
structure Lexer where
  input : List Char
  position : Nat
deriving DecidableEq

/-- Lexer::new. -/
def Lexer.new (input : List Char) : Lexer := { input := input, position := 0 }

/-- Lexer::peek: `self.input.chars().nth(self.position)`. -/
def Lexer.peek (self : Lexer) : Option Char := self.input[self.position]?

/-- Lexer::next: when `self.position < self.input.len()` (a byte length),
read `chars().nth(self.position)` and advance the cursor by one
character; otherwise yield nothing and leave the cursor in place. -/
def Lexer.next (self : Lexer) : Option Char × Lexer :=
  if self.position < byteLen self.input then
    match self.input[self.position]? with
    | some c => (some c, { self with position := self.position + 1 })
    | none => (none, self)
  else (none, self)

/-- Iteration count of the Lexer::skip_whitespace loop on the text after
the cursor: the length of the leading whitespace run. -/
def skipWsCount : List Char → Nat
  | [] => 0
  | c :: s => if char_is_whitespace c then skipWsCount s + 1 else 0

/-- Lexer::skip_whitespace: peek and consume while the next character is
whitespace. Each iteration advances the cursor one character, so the loop
adds the length of the leading whitespace run of the unread text. -/
def Lexer.skip_whitespace (self : Lexer) : Lexer :=
  { self with position := self.position + skipWsCount (self.input.drop self.position) }

/-- Loop of Lexer::lex_commit_type on the unread text: the accumulated
alphanumeric run, the number of characters consumed, and whether the loop
returned at a '(' (which skips the emptiness check of the source). -/
def commitTypeScan : List Char → List Char × Nat × Bool
  | [] => ([], 0, false)
  | c :: s =>
    if char_is_alphanumeric c then
      ((c :: (commitTypeScan s).1, (commitTypeScan s).2.1 + 1, (commitTypeScan s).2.2))
    else if c = '(' then ([], 0, true)
    else ([], 0, false)

/-- Lexer::lex_commit_type: skip whitespace, accumulate alphanumerics;
return the CommitType token at a '(' even when empty, otherwise only when
the accumulated run is non-empty, else fail. -/
def Lexer.lex_commit_type (self : Lexer) : Except String Token × Lexer :=
  let st := self.skip_whitespace
  let scan := commitTypeScan (st.input.drop st.position)
  let st := { st with position := st.position + scan.2.1 }
  if scan.2.2 then (Except.ok (Token.CommitType scan.1), st)
  else if scan.1 ≠ [] then (Except.ok (Token.CommitType scan.1), st)
  else (Except.error "Invalid commit type", st)

/-- Loop of Lexer::lex_scope after the '(': the characters before the
first ')', whether a ')' was found, and the number of characters consumed
(the ')' included when found). -/
def scopeScan : List Char → List Char × Bool × Nat
  | [] => ([], false, 0)
  | c :: s =>
    if c = ')' then ([], true, 1)
    else (c :: (scopeScan s).1, (scopeScan s).2.1, (scopeScan s).2.2 + 1)

/-- Lexer::lex_scope: require the next character to be '(' (consuming
it), then consume up to and including the first ')', returning the
interior text; fail with "Unclosed scope" when the input ends first. -/
def Lexer.lex_scope (self : Lexer) : Except String Token × Lexer :=
  match self.next with
  | (some c, st) =>
    if c = '(' then
      let scan := scopeScan (st.input.drop st.position)
      let st := { st with position := st.position + scan.2.2 }
      if scan.2.1 then (Except.ok (Token.Scope scan.1), st)
      else (Except.error "Unclosed scope", st)
    else (Except.error "Expected '(' for scope", st)
  | (none, st) => (Except.error "Expected '(' for scope", st)

/-- Lexer::lex_breaking_change_marker: consume a '!' and yield the
marker, or fail without consuming. -/
def Lexer.lex_breaking_change_marker (self : Lexer) : Except String Token × Lexer :=
  if self.peek = some '!' then (Except.ok Token.BreakingChangeMarker, (self.next).2)
  else (Except.error "No breaking change marker", self)

/-- Loop of Lexer::lex_description: the characters before the first
newline, and the number of characters consumed (the newline included when
present). -/
def descriptionScan : List Char → List Char × Nat
  | [] => ([], 0)
  | c :: s =>
    if c = '\n' then ([], 1)
    else (c :: (descriptionScan s).1, (descriptionScan s).2 + 1)

/-- Lexer::lex_description: skip whitespace, consume up to the first
newline or the end of input; fail when the accumulated text is empty. -/
def Lexer.lex_description (self : Lexer) : Except String Token × Lexer :=
  let st := self.skip_whitespace
  let scan := descriptionScan (st.input.drop st.position)
  let st := { st with position := st.position + scan.2 }
  if scan.1 ≠ [] then (Except.ok (Token.Description scan.1), st)
  else (Except.error "Missing description", st)

/-- Marker search of Lexer::lex_body_and_footer, the Rust
`find("BREAKING CHANGE:").or_else(find("Reviewed-by:")).or_else(find("Refs:"))`
chain: the first occurrence of "BREAKING CHANGE:" when that marker occurs
at all, otherwise of "Reviewed-by:", otherwise of "Refs:". -/
def chosenMarkerIndex (r : List Char) : Option Nat :=
  match findSub r markerBreakingChange with
  | some i => some i
  | none =>
    match findSub r markerReviewedBy with
    | some i => some i
    | none => findSub r markerRefs

/-- Lexer::lex_body_and_footer: skip whitespace, then slice the whole
remaining input at the cursor — the source writes
`&self.input[self.position..]`, a byte slice at the character-counting
cursor, which panics (`none` here) when that byte index is not a
character boundary. On a marker hit, split there: text before it, trimmed,
is the Body token (omitted when empty), text from it onward, trimmed, the
Footer token, the cursor left unchanged. With no marker, the whole
non-empty remainder, trimmed, is the Body and the cursor advances by its
byte length; an empty remainder yields neither token. -/
def Lexer.lex_body_and_footer (self : Lexer) : Option ((Option Token × Option Token) × Lexer) :=
  let st := self.skip_whitespace
  match byteDrop st.input st.position with
  | none => none
  | some remaining_input =>
    match chosenMarkerIndex remaining_input with
    | some index =>
      let body_part := remaining_input.take index
      let footer_part := remaining_input.drop index
      let body : Option Token :=
        if trim body_part ≠ [] then some (Token.Body (trim body_part)) else none
      let footer : Option Token := some (Token.Footer (trim footer_part))
      some ((body, footer), st)
    | none =>
      if remaining_input ≠ [] then
        some ((some (Token.Body (trim remaining_input)), none),
              { st with position := st.position + byteLen remaining_input })
      else some ((none, none), st)

/-- Step of Lexer::lex that runs lex_commit_type and pushes its token,
propagating its error. -/
def Lexer.lexPhaseType (self : Lexer) : Except String (List Token × Lexer) :=
  match self.lex_commit_type with
  | (Except.ok tk, st) => Except.ok ([tk], st)
  | (Except.error e, _) => Except.error e

/-- Step of Lexer::lex that, when the next character is '(', runs
lex_scope and pushes its token, propagating its error. -/
def Lexer.lexPhaseScope : List Token × Lexer → Except String (List Token × Lexer)
  | (tokens, st) =>
    if st.peek = some '(' then
      match st.lex_scope with
      | (Except.ok tk, st1) => Except.ok (tokens ++ [tk], st1)
      | (Except.error e, _) => Except.error e
    else Except.ok (tokens, st)

/-- Step of Lexer::lex that, when the next character is '!', runs
lex_breaking_change_marker and pushes the marker. -/
def Lexer.lexPhaseBreaking : List Token × Lexer → Except String (List Token × Lexer)
  | (tokens, st) =>
    if st.peek = some '!' then
      match st.lex_breaking_change_marker with
      | (Except.ok tk, st1) => Except.ok (tokens ++ [tk], st1)
      | (Except.error e, _) => Except.error e
    else Except.ok (tokens, st)

/-- Step of Lexer::lex that requires and consumes the ':' separator. -/
def Lexer.lexPhaseColon : List Token × Lexer → Except String (List Token × Lexer)
  | (tokens, st) =>
    match st.next with
    | (some c, st1) =>
      if c = ':' then Except.ok (tokens, st1)
      else Except.error "Expected ':' after commit type or scope"
    | (none, _) => Except.error "Expected ':' after commit type or scope"

/-- Step of Lexer::lex that runs lex_description and pushes its token,
propagating its error. -/
def Lexer.lexPhaseDescription : List Token × Lexer → Except String (List Token × Lexer)
  | (tokens, st) =>
    match st.lex_description with
    | (Except.ok tk, st1) => Except.ok (tokens ++ [tk], st1)
    | (Except.error e, _) => Except.error e

/-- Step of Lexer::lex that runs lex_body_and_footer and pushes whichever
of the Body and Footer tokens were produced (`none` when the slice inside
panics). -/
def Lexer.lexPhaseBody : List Token × Lexer → Option (List Token × Lexer)
  | (tokens, st) =>
    match st.lex_body_and_footer with
    | none => none
    | some ((body, footer), st1) =>
      let tokens := match body with
        | some tk => tokens ++ [tk]
        | none => tokens
      let tokens := match footer with
        | some tk => tokens ++ [tk]
        | none => tokens
      some (tokens, st1)

/-- Lexer::lex: the orchestrating entry point, the five steps in
sequence. The result drops the exhausted lexer state the caller never
sees; `none` is the byte-slice panic of lex_body_and_footer. -/
def Lexer.lex (self : Lexer) : Option (Except String (List Token)) :=
  match self.lexPhaseType with
  | Except.error e => some (Except.error e)
  | Except.ok p1 =>
    match Lexer.lexPhaseScope p1 with
    | Except.error e => some (Except.error e)
    | Except.ok p2 =>
      match Lexer.lexPhaseBreaking p2 with
      | Except.error e => some (Except.error e)
      | Except.ok p3 =>
        match Lexer.lexPhaseColon p3 with
        | Except.error e => some (Except.error e)
        | Except.ok p4 =>
          match Lexer.lexPhaseDescription p4 with
          | Except.error e => some (Except.error e)
          | Except.ok p5 =>
            match Lexer.lexPhaseBody p5 with
            | none => none
            | some (tokens, _) => some (Except.ok tokens)

/-- State of the lexer after the commit-type step and the optional scope
step of Lexer::lex, with the tokens pushed so far. -/
def Lexer.afterTypeScope (self : Lexer) : Except String (List Token × Lexer) :=
  match self.lexPhaseType with
  | Except.error e => Except.error e
  | Except.ok p => Lexer.lexPhaseScope p

/-- State of the lexer after the commit-type, optional scope and optional
breaking-marker steps of Lexer::lex, with the tokens pushed so far. -/
def Lexer.afterTypeScopeBreaking (self : Lexer) : Except String (List Token × Lexer) :=
  match self.afterTypeScope with
  | Except.error e => Except.error e
  | Except.ok p => Lexer.lexPhaseBreaking p

/-- Accumulator of the parse_commit fold: the six mutable locals of the
source, at their initial values by default. -/
structure ParseAcc where
  commit_type : Option (List Char) := none
  scope : Option (List Char) := none
  breaking_change : Bool := false
  description : Option (List Char) := none
  body : Option (List Char) := none
  footer : Option (List Char) := none
deriving DecidableEq

/-- Body of the parse_commit loop: each token overwrites the field of its
kind. -/
def applyToken (acc : ParseAcc) : Token → ParseAcc
  | Token.CommitType t => { acc with commit_type := some t }
  | Token.Scope s => { acc with scope := some s }
  | Token.BreakingChangeMarker => { acc with breaking_change := true }
  | Token.Description d => { acc with description := some d }
  | Token.Body b => { acc with body := some b }
  | Token.Footer f => { acc with footer := some f }

/-- parse_commit: fold the token sequence (last write wins per field),
then require a commit type and a description to be present, checking the
type first. -/
def parse_commit (tokens : List Token) : Except String ConventionalCommit :=
  let acc := tokens.foldl applyToken {}
  match acc.commit_type with
  | some commit_type =>
    match acc.description with
    | some description =>
      Except.ok ⟨commit_type, acc.scope, acc.breaking_change, description, acc.body, acc.footer⟩
    | none => Except.error "Missing description"
  | none => Except.error "Missing commit type"

/-- Whole pipeline of the crate's doc example: tokenize then parse.
`none` is the tokenizer's byte-slice panic. -/
def lexParse (input : List Char) : Option (Except String ConventionalCommit) :=
  match (Lexer.new input).lex with
  | none => none
  | some (Except.error e) => some (Except.error e)
  | some (Except.ok tokens) => some (parse_commit tokens)

/-- Payload selector for CommitType tokens (used to read the fold). -/
def selCommitType : Token → Option (List Char)
  | Token.CommitType t => some t
  | _ => none

/-- Payload selector for Scope tokens. -/
def selScope : Token → Option (List Char)
  | Token.Scope s => some s
  | _ => none

/-- Payload selector for Description tokens. -/
def selDescription : Token → Option (List Char)
  | Token.Description d => some d
  | _ => none

/-- Payload selector for Body tokens. -/
def selBody : Token → Option (List Char)
  | Token.Body b => some b
  | _ => none

/-- Payload selector for Footer tokens. -/
def selFooter : Token → Option (List Char)
  | Token.Footer f => some f
  | _ => none

/-- Whether a token is the breaking-change marker. -/
def Token.isBreaking : Token → Bool
  | Token.BreakingChangeMarker => true
  | _ => false

/-- Payload of the last token a selector accepts: what a last-write-wins
fold leaves in the corresponding field. -/
def lastPayload (sel : Token → Option (List Char)) (tokens : List Token) : Option (List Char) :=
  tokens.reverse.findSome? sel

/-- Description text the spec ascribes to scan_description: skip leading
whitespace, then the characters up to (but not including) the first
newline or the end of input. -/
def descriptionOf (st : Lexer) : List Char :=
  ((st.input.drop st.position).dropWhile char_is_whitespace).takeWhile (fun c => c ≠ '\n')

/-- Split index the claim for scan_body_and_footer describes, written
from the spec's words for comparison with chosenMarkerIndex: the least
offset at which any of the three markers occurs, ties broken by
declaration order (which the minimum makes immaterial). -/
def spec_earliest_marker_index (r : List Char) : Option Nat :=
  match ([findSub r markerBreakingChange, findSub r markerReviewedBy,
          findSub r markerRefs].filterMap id) with
  | [] => none
  | i :: is => some (is.foldl Nat.min i)

/-- Body/footer split the claim describes, written from the spec's words
for comparison with lex_body_and_footer: split at the earliest marker
occurrence; before it, trimmed, the Body (omitted if empty), from it
onward, trimmed, the Footer. -/
def spec_scan_body_and_footer (r : List Char) : Option Token × Option Token :=
  match spec_earliest_marker_index r with
  | some i =>
    (if trim (r.take i) ≠ [] then some (Token.Body (trim (r.take i))) else none,
     some (Token.Footer (trim (r.drop i))))
  | none =>
    (if r ≠ [] then some (Token.Body (trim r)) else none, none)

/-- Input of scenario 4 of the spec. -/
def exampleBreakingInput : List Char := ("refactor(core)!: refactor core functionality").toList

/-- Lexer state after the type and scope steps on exampleBreakingInput:
the cursor sits on the '!'. -/
def exampleBreakingState : Lexer := { input := exampleBreakingInput, position := 14 }

/-- Record the pipeline produces for exampleBreakingInput. -/
def exampleBreakingRecord : ConventionalCommit :=
  ⟨("refactor").toList, some (("core").toList), true,
   ("refactor core functionality").toList, none, none⟩

/-- Remainder used to separate the marker-priority search from the
leftmost-occurrence rule: "Reviewed-by:" occurs at offset 0 and
"BREAKING CHANGE:" at offset 15. -/
def priorityInput : List Char := ("Reviewed-by: A\nBREAKING CHANGE: b").toList

/-- Token sequence with a duplicated Description, for the
last-write-wins fold. -/
def exampleDupTokens : List Token :=
  [Token.CommitType ("feat").toList, Token.Description ("a").toList,
   Token.Description ("b").toList]

/-- Record the fold produces for exampleDupTokens: the second
Description wins. -/
def exampleDupRecord : ConventionalCommit :=
  ⟨("feat").toList, none, false, ("b").toList, none, none⟩

/-- Helper: an alphanumeric character (the model's class) is not
whitespace, so skip_whitespace does not move past it. -/
theorem alnum_not_ws {c : Char} (h : char_is_alphanumeric c = true) :
    char_is_whitespace c = false := by
  simp only [char_is_alphanumeric, char_is_whitespace, Bool.or_eq_true, Bool.and_eq_true,
    decide_eq_true_eq, Bool.or_eq_false_iff, Bool.and_eq_false_iff,
    decide_eq_false_iff_not] at h ⊢
  omega

/-- Helper: every character occupies at least one byte. -/
theorem one_le_len_utf8 (c : Char) : 1 ≤ len_utf8 c := by
  unfold len_utf8
  split
  · omega
  · split
    · omega
    · split <;> omega

/-- Helper: the character count never exceeds the byte count. -/
theorem length_le_byteLen : ∀ s : List Char, s.length ≤ byteLen s
  | [] => Nat.le_refl 0
  | c :: s => by
    have h1 := one_le_len_utf8 c
    have h2 := length_le_byteLen s
    simp only [List.length_cons, byteLen]
    omega

/-- Helper: an in-range lookup implies the index is below the length. -/
theorem getElem?_some_lt : ∀ {l : List Char} {n : Nat} {c : Char},
    l[n]? = some c → n < l.length
  | [], n, c, h => by simp at h
  | a :: l, 0, c, _ => Nat.succ_pos _
  | a :: l, n + 1, c, h => by
    simp only [List.getElem?_cons_succ] at h
    exact Nat.succ_lt_succ (getElem?_some_lt h)

/-- Helper: when peek sees a character, next consumes exactly it. -/
theorem Lexer.next_of_peek {st : Lexer} {c : Char} (h : st.peek = some c) :
    st.next = (some c, { st with position := st.position + 1 }) := by
  unfold Lexer.peek at h
  have hlt := Nat.lt_of_lt_of_le (getElem?_some_lt h) (length_le_byteLen st.input)
  unfold Lexer.next
  rw [if_pos hlt, h]

/-- Helper: when peek sees nothing, next consumes nothing. -/
theorem Lexer.next_of_peek_none {st : Lexer} (h : st.peek = none) :
    st.next = (none, st) := by
  unfold Lexer.peek at h
  unfold Lexer.next
  split
  · rw [h]
  · rfl

/-- Helper: dropping the whitespace count equals dropWhile. -/
theorem drop_skipWsCount : ∀ l : List Char,
    l.drop (skipWsCount l) = l.dropWhile char_is_whitespace
  | [] => rfl
  | c :: s => by
    by_cases h : char_is_whitespace c
    · simp [skipWsCount, h, List.dropWhile_cons, drop_skipWsCount s]
    · simp [skipWsCount, h, List.dropWhile_cons]

/-- Helper: skip_whitespace leaves the input unchanged. -/
theorem Lexer.skip_whitespace_input (st : Lexer) :
    (st.skip_whitespace).input = st.input := rfl

/-- Helper: after skip_whitespace the unread text is the dropWhile of the
unread text before it. -/
theorem Lexer.skip_whitespace_drop (st : Lexer) :
    st.input.drop (st.skip_whitespace).position =
      (st.input.drop st.position).dropWhile char_is_whitespace := by
  unfold Lexer.skip_whitespace
  rw [← List.drop_drop, drop_skipWsCount]

/-- Helper: indexing an append at the length of the left part. -/
theorem getElem?_append_cons : ∀ (t : List Char) (x : Char) (l : List Char),
    (t ++ x :: l)[t.length]? = some x
  | [], x, l => by simp
  | c :: t, x, l => by
    simpa using getElem?_append_cons t x l

/-- Helper: dropping one past the length of the left part of an append. -/
theorem drop_append_cons : ∀ (t : List Char) (x : Char) (l : List Char),
    (t ++ x :: l).drop (t.length + 1) = l
  | [], x, l => by simp
  | c :: t, x, l => by
    simp [drop_append_cons t x l]

/-- Helper: the commit-type loop consumes an alphanumeric run whole and
reports the '(' that stops it. -/
theorem commitTypeScan_append_paren : ∀ (t l : List Char),
    t.all char_is_alphanumeric = true →
    commitTypeScan (t ++ '(' :: l) = (t, t.length, true)
  | [], l, _ => by simp [commitTypeScan, char_is_alphanumeric]
  | c :: t, l, h => by
    simp only [List.all_cons, Bool.and_eq_true] at h
    simp [commitTypeScan, h.1, commitTypeScan_append_paren t l h.2]

/-- Helper: the scope loop stops at the first ')', which closes a scope
containing none. -/
theorem scopeScan_append_close : ∀ (s l : List Char),
    ')' ∉ s →
    scopeScan (s ++ ')' :: l) = (s, true, s.length + 1)
  | [], l, _ => by simp [scopeScan]
  | c :: s, l, h => by
    simp only [List.mem_cons, not_or] at h
    have hc : ¬(c = ')') := fun hh => h.1 hh.symm
    simp [scopeScan, hc, scopeScan_append_close s l h.2, Nat.add_comm]

/-- Helper: the scope loop when some ')' occurs in the unread text. -/
theorem scopeScan_of_mem : ∀ l : List Char, ')' ∈ l →
    scopeScan l = (l.takeWhile (fun c => c ≠ ')'), true,
                   (l.takeWhile (fun c => c ≠ ')')).length + 1)
  | c :: s, h => by
    by_cases hc : c = ')'
    · subst hc
      simp [scopeScan, List.takeWhile_cons]
    · have hs : ')' ∈ s := by
        rcases List.mem_cons.mp h with h1 | h1
        · exact absurd h1.symm hc
        · exact h1
      simp [scopeScan, hc, scopeScan_of_mem s hs, List.takeWhile_cons, Nat.add_comm]

/-- Helper: the scope loop when no ')' occurs: everything is consumed and
nothing is found. -/
theorem scopeScan_of_not_mem : ∀ l : List Char, ')' ∉ l →
    scopeScan l = (l, false, l.length)
  | [], _ => rfl
  | c :: s, h => by
    simp only [List.mem_cons, not_or] at h
    have hc : ¬(c = ')') := fun hh => h.1 hh.symm
    simp [scopeScan, hc, scopeScan_of_not_mem s h.2]

/-- Helper: the description loop accumulates exactly the text before the
first newline. -/
theorem descriptionScan_fst : ∀ l : List Char,
    (descriptionScan l).1 = l.takeWhile (fun c => c ≠ '\n')
  | [] => rfl
  | c :: s => by
    by_cases h : c = '\n'
    · subst h
      simp [descriptionScan, List.takeWhile_cons]
    · simp [descriptionScan, h, List.takeWhile_cons, descriptionScan_fst s]

/-- Helper: findSub fails exactly when the pattern is a prefix of no
suffix, i.e. occurs nowhere. -/
theorem findSub_eq_none_iff : ∀ (s pat : List Char),
    findSub s pat = none ↔ ∀ j, pat.isPrefixOf (s.drop j) = false
  | [], pat => by
    simp only [findSub, List.drop_nil]
    by_cases hp : pat = []
    · subst hp
      simp [List.isPrefixOf]
    · rw [if_neg hp]
      constructor
      · intro _ j
        cases pat with
        | nil => exact absurd rfl hp
        | cons p ps => rfl
      · intro _
        rfl
  | c :: s, pat => by
    by_cases hp : pat.isPrefixOf (c :: s) = true
    · simp only [findSub, if_pos hp]
      constructor
      · intro h
        simp at h
      · intro h
        have h0 := h 0
        simp only [List.drop_zero] at h0
        rw [hp] at h0
        cases h0
    · simp only [findSub, if_neg hp]
      cases hf : findSub s pat with
      | none =>
        have ihs := (findSub_eq_none_iff s pat).mp hf
        simp only [Option.map_none']
        constructor
        · intro _ j
          cases j with
          | zero =>
            simp only [List.drop_zero]
            cases hq : pat.isPrefixOf (c :: s) with
            | true => exact absurd hq hp
            | false => rfl
          | succ k =>
            rw [List.drop_succ_cons]
            exact ihs k
        · intro _
          trivial
      | some m =>
        simp only [Option.map_some']
        constructor
        · intro h
          simp at h
        · intro h
          exfalso
          have hnone : findSub s pat = none := by
            refine (findSub_eq_none_iff s pat).mpr ?_
            intro j
            have hj := h (j + 1)
            rwa [List.drop_succ_cons] at hj
          rw [hf] at hnone
          cases hnone

/-- Helper: findSub finds exactly the least position where the pattern is
a prefix of the remaining suffix. -/
theorem findSub_eq_some_iff : ∀ (s pat : List Char) (i : Nat),
    findSub s pat = some i ↔
      (pat.isPrefixOf (s.drop i) = true ∧
       ∀ j < i, pat.isPrefixOf (s.drop j) = false)
  | [], pat, i => by
    simp only [findSub, List.drop_nil]
    by_cases hp : pat = []
    · subst hp
      rw [if_pos rfl]
      constructor
      · intro h
        have hi : i = 0 := by
          have := Option.some.inj h
          omega
        subst hi
        exact ⟨by simp [List.isPrefixOf], by omega⟩
      · rintro ⟨h1, h2⟩
        cases i with
        | zero => rfl
        | succ n =>
          have h0 := h2 0 (by omega)
          simp [List.isPrefixOf] at h0
    · rw [if_neg hp]
      constructor
      · intro h
        simp at h
      · rintro ⟨h1, h2⟩
        exfalso
        cases pat with
        | nil => exact hp rfl
        | cons p ps => simp [List.isPrefixOf] at h1
  | c :: s, pat, i => by
    by_cases hp : pat.isPrefixOf (c :: s) = true
    · simp only [findSub, if_pos hp]
      constructor
      · intro h
        have hi : i = 0 := by
          have := Option.some.inj h
          omega
        subst hi
        simp only [List.drop_zero]
        exact ⟨hp, by omega⟩
      · rintro ⟨h1, h2⟩
        cases i with
        | zero => rfl
        | succ n =>
          have h0 := h2 0 (by omega)
          simp only [List.drop_zero] at h0
          rw [hp] at h0
          cases h0
    · simp only [findSub, if_neg hp]
      have hp' : pat.isPrefixOf (c :: s) = false := by
        cases hq : pat.isPrefixOf (c :: s) with
        | true => exact absurd hq hp
        | false => rfl
      cases hf : findSub s pat with
      | none =>
        have ihs := (findSub_eq_none_iff s pat).mp hf
        simp only [Option.map_none']
        constructor
        · intro h
          simp at h
        · rintro ⟨h1, h2⟩
          exfalso
          cases i with
          | zero =>
            simp only [List.drop_zero] at h1
            rw [h1] at hp'
            cases hp'
          | succ n =>
            rw [List.drop_succ_cons] at h1
            have := ihs n
            rw [h1] at this
            cases this
      | some m =>
        have ihs := (findSub_eq_some_iff s pat m).mp hf
        simp only [Option.map_some']
        constructor
        · intro h
          have hi : i = m + 1 := by
            have := Option.some.inj h
            omega
          subst hi
          constructor
          · rw [List.drop_succ_cons]
            exact ihs.1
          · intro j hj
            cases j with
            | zero =>
              simpa using hp'
            | succ k =>
              rw [List.drop_succ_cons]
              exact ihs.2 k (by omega)
        · rintro ⟨h1, h2⟩
          cases i with
          | zero =>
            simp only [List.drop_zero] at h1
            rw [h1] at hp'
            cases hp'
          | succ n =>
            rw [List.drop_succ_cons] at h1
            have h2' : ∀ j < n, pat.isPrefixOf (s.drop j) = false := by
              intro j hj
              have := h2 (j + 1) (by omega)
              rwa [List.drop_succ_cons] at this
            have heq : findSub s pat = some n := (findSub_eq_some_iff s pat n).mpr ⟨h1, h2'⟩
            rw [hf] at heq
            rw [Option.some.inj heq]

/-- Helper: the parse fold equals, field by field, the last payload of
each token kind (stated over a reversed list for the induction). -/
theorem parse_acc_spec_rev : ∀ rts : List Token,
    (rts.reverse).foldl applyToken {} =
      { commit_type := rts.findSome? selCommitType
        scope := rts.findSome? selScope
        breaking_change := rts.any Token.isBreaking
        description := rts.findSome? selDescription
        body := rts.findSome? selBody
        footer := rts.findSome? selFooter }
  | [] => rfl
  | tk :: rts => by
    rw [List.reverse_cons, List.foldl_append, parse_acc_spec_rev rts]
    cases tk <;>
      simp [applyToken, List.findSome?_cons, List.any_cons, Token.isBreaking,
        selCommitType, selScope, selDescription, selBody, selFooter]

/-- Helper: the parse fold from the defaults, read through lastPayload. -/
theorem parse_acc_spec (ts : List Token) :
    ts.foldl applyToken {} =
      { commit_type := lastPayload selCommitType ts
        scope := lastPayload selScope ts
        breaking_change := ts.any Token.isBreaking
        description := lastPayload selDescription ts
        body := lastPayload selBody ts
        footer := lastPayload selFooter ts } := by
  have h := parse_acc_spec_rev ts.reverse
  rw [List.reverse_reverse, List.any_reverse] at h
  exact h

/-- Helper: parse_commit in terms of the last payloads: succeed exactly
when a commit type and a description are recorded, the type checked
first. -/
theorem parse_commit_eq (ts : List Token) :
    parse_commit ts =
      match lastPayload selCommitType ts, lastPayload selDescription ts with
      | some t, some d =>
        Except.ok ⟨t, lastPayload selScope ts, ts.any Token.isBreaking, d,
          lastPayload selBody ts, lastPayload selFooter ts⟩
      | some _, none => Except.error "Missing description"
      | none, _ => Except.error "Missing commit type" := by
  unfold parse_commit
  rw [parse_acc_spec]
  cases lastPayload selCommitType ts <;> cases lastPayload selDescription ts <;> rfl

/-- Helper: no CommitType token means no commit-type payload recorded. -/
theorem lastCommitType_eq_none_iff (ts : List Token) :
    lastPayload selCommitType ts = none ↔ ∀ t, Token.CommitType t ∉ ts := by
  unfold lastPayload
  rw [List.findSome?_eq_none_iff]
  constructor
  · intro h t hmem
    have := h _ (List.mem_reverse.mpr hmem)
    simp [selCommitType] at this
  · intro h x hx
    cases x <;> simp [selCommitType]
    rename_i t
    exact h t (List.mem_reverse.mp hx)

/-- Helper: no Description token means no description payload recorded. -/
theorem lastDescription_eq_none_iff (ts : List Token) :
    lastPayload selDescription ts = none ↔ ∀ d, Token.Description d ∉ ts := by
  unfold lastPayload
  rw [List.findSome?_eq_none_iff]
  constructor
  · intro h d hmem
    have := h _ (List.mem_reverse.mpr hmem)
    simp [selDescription] at this
  · intro h x hx
    cases x <;> simp [selDescription]
    rename_i d
    exact h d (List.mem_reverse.mp hx)

/-- Helper: a recorded commit-type payload comes from a CommitType token
of the sequence. -/
theorem mem_of_lastCommitType_eq_some {ts : List Token} {t : List Char}
    (h : lastPayload selCommitType ts = some t) : Token.CommitType t ∈ ts := by
  unfold lastPayload at h
  rcases List.exists_of_findSome?_eq_some h with ⟨x, hx, hsel⟩
  cases x <;> simp [selCommitType] at hsel
  subst hsel
  exact List.mem_reverse.mp hx

/-- Helper: a recorded description payload comes from a Description token
of the sequence. -/
theorem mem_of_lastDescription_eq_some {ts : List Token} {d : List Char}
    (h : lastPayload selDescription ts = some d) : Token.Description d ∈ ts := by
  unfold lastPayload at h
  rcases List.exists_of_findSome?_eq_some h with ⟨x, hx, hsel⟩
  cases x <;> simp [selDescription] at hsel
  subst hsel
  exact List.mem_reverse.mp hx

/-- Helper: findSome? skips a left part the selector rejects wholesale. -/
theorem findSome?_append_of_none {α β : Type} (f : α → Option β) :
    ∀ (l₁ l₂ : List α), (∀ x ∈ l₁, f x = none) →
    (l₁ ++ l₂).findSome? f = l₂.findSome? f
  | [], l₂, _ => rfl
  | a :: l₁, l₂, h => by
    rw [List.cons_append, List.findSome?_cons, h a (List.mem_cons_self a l₁)]
    exact findSome?_append_of_none f l₁ l₂ (fun x hx => h x (List.mem_cons_of_mem a hx))

/-- Helper: lex_commit_type only ever succeeds with a CommitType token. -/
theorem lex_commit_type_ok_shape {st st1 : Lexer} {tk : Token}
    (h : st.lex_commit_type = (Except.ok tk, st1)) : ∃ t, tk = Token.CommitType t := by
  unfold Lexer.lex_commit_type at h
  simp only [] at h
  split at h
  · simp only [Prod.mk.injEq] at h
    exact ⟨_, (Except.ok.inj h.1).symm⟩
  · split at h
    · simp only [Prod.mk.injEq] at h
      exact ⟨_, (Except.ok.inj h.1).symm⟩
    · simp only [Prod.mk.injEq] at h
      cases h.1

/-- Helper: lex_scope only ever succeeds with a Scope token. -/
theorem lex_scope_ok_shape {st st1 : Lexer} {tk : Token}
    (h : st.lex_scope = (Except.ok tk, st1)) : ∃ s, tk = Token.Scope s := by
  unfold Lexer.lex_scope at h
  rcases hn : st.next with ⟨oc, st2⟩
  rw [hn] at h
  cases oc with
  | none =>
    simp only [Prod.mk.injEq] at h
    cases h.1
  | some c =>
    simp only [] at h
    split at h
    · split at h
      · simp only [Prod.mk.injEq] at h
        exact ⟨_, (Except.ok.inj h.1).symm⟩
      · simp only [Prod.mk.injEq] at h
        cases h.1
    · simp only [Prod.mk.injEq] at h
      cases h.1

/-- Helper: lex_description only ever succeeds with a Description token. -/
theorem lex_description_ok_shape {st st1 : Lexer} {tk : Token}
    (h : st.lex_description = (Except.ok tk, st1)) : ∃ d, tk = Token.Description d := by
  unfold Lexer.lex_description at h
  simp only [] at h
  split at h
  · simp only [Prod.mk.injEq] at h
    exact ⟨_, (Except.ok.inj h.1).symm⟩
  · simp only [Prod.mk.injEq] at h
    cases h.1

/-- Helper: lex_body_and_footer only ever emits Body and Footer tokens. -/
theorem lex_body_and_footer_shape {st st1 : Lexer} {b f : Option Token}
    (h : st.lex_body_and_footer = some ((b, f), st1)) :
    (∀ tk, b = some tk → ∃ x, tk = Token.Body x) ∧
    (∀ tk, f = some tk → ∃ x, tk = Token.Footer x) := by
  unfold Lexer.lex_body_and_footer at h
  simp only [] at h
  split at h
  · cases h
  · split at h
    · split at h
      · simp only [Option.some.injEq, Prod.mk.injEq] at h
        obtain ⟨⟨hb, hf⟩, -⟩ := h
        subst hb
        subst hf
        constructor
        · intro tk htk
          exact ⟨_, (Option.some.inj htk).symm⟩
        · intro tk htk
          exact ⟨_, (Option.some.inj htk).symm⟩
      · simp only [Option.some.injEq, Prod.mk.injEq] at h
        obtain ⟨⟨hb, hf⟩, -⟩ := h
        subst hb
        subst hf
        constructor
        · intro tk htk
          cases htk
        · intro tk htk
          exact ⟨_, (Option.some.inj htk).symm⟩
    · split at h
      · simp only [Option.some.injEq, Prod.mk.injEq] at h
        obtain ⟨⟨hb, hf⟩, -⟩ := h
        subst hb
        subst hf
        constructor
        · intro tk htk
          exact ⟨_, (Option.some.inj htk).symm⟩
        · intro tk htk
          cases htk
      · simp only [Option.some.injEq, Prod.mk.injEq] at h
        obtain ⟨⟨hb, hf⟩, -⟩ := h
        subst hb
        subst hf
        constructor
        · intro tk htk
          cases htk
        · intro tk htk
          cases htk

/-- Helper: a successful next call reads the peeked character and
advances the cursor by one. -/
theorem next_some_inv {st : Lexer} {c : Char} {st1 : Lexer}
    (h : st.next = (some c, st1)) :
    st.peek = some c ∧ st1 = { st with position := st.position + 1 } := by
  unfold Lexer.next at h
  split at h
  · cases hg : st.input[st.position]? with
    | some c' =>
      rw [hg] at h
      simp only [Prod.mk.injEq, Option.some.injEq] at h
      exact ⟨by rw [Lexer.peek, hg, h.1], h.2.symm⟩
    | none =>
      rw [hg] at h
      simp only [Prod.mk.injEq] at h
      cases h.1
  · simp only [Prod.mk.injEq] at h
    cases h.1

/-- Helper: the commit-type step succeeds only with a single CommitType
token as the output list. -/
theorem phaseType_shape {st : Lexer} {q : List Token × Lexer}
    (h : st.lexPhaseType = Except.ok q) :
    ∃ t st1, q = ([Token.CommitType t], st1) ∧
      st.lex_commit_type = (Except.ok (Token.CommitType t), st1) := by
  unfold Lexer.lexPhaseType at h
  rcases hc : st.lex_commit_type with ⟨res, st1⟩
  rw [hc] at h
  cases res with
  | error e => cases h
  | ok tk =>
    rcases lex_commit_type_ok_shape hc with ⟨t, rfl⟩
    exact ⟨t, st1, (Except.ok.inj h).symm, rfl⟩

/-- Helper: the scope step either consumes a scope at a '(' or passes the
state through untouched. -/
theorem phaseScope_shape {tks : List Token} {st : Lexer} {q : List Token × Lexer}
    (h : Lexer.lexPhaseScope (tks, st) = Except.ok q) :
    (st.peek = some '(' ∧ ∃ s st1, q = (tks ++ [Token.Scope s], st1) ∧
       st.lex_scope = (Except.ok (Token.Scope s), st1)) ∨
    (st.peek ≠ some '(' ∧ q = (tks, st)) := by
  unfold Lexer.lexPhaseScope at h
  simp only [] at h
  split at h
  · rename_i hpk
    left
    refine ⟨hpk, ?_⟩
    rcases hs : st.lex_scope with ⟨res, st1⟩
    rw [hs] at h
    cases res with
    | error e => cases h
    | ok tk =>
      rcases lex_scope_ok_shape hs with ⟨s, rfl⟩
      exact ⟨s, st1, (Except.ok.inj h).symm, rfl⟩
  · rename_i hpk
    right
    exact ⟨hpk, (Except.ok.inj h).symm⟩

/-- Helper: the breaking-marker step either consumes a '!' and pushes the
marker or passes the state through untouched. -/
theorem phaseBreaking_shape {tks : List Token} {st : Lexer} {q : List Token × Lexer}
    (h : Lexer.lexPhaseBreaking (tks, st) = Except.ok q) :
    (st.peek = some '!' ∧
       q = (tks ++ [Token.BreakingChangeMarker], { st with position := st.position + 1 })) ∨
    (st.peek ≠ some '!' ∧ q = (tks, st)) := by
  unfold Lexer.lexPhaseBreaking at h
  simp only [] at h
  split at h
  · rename_i hpk
    left
    refine ⟨hpk, ?_⟩
    unfold Lexer.lex_breaking_change_marker at h
    rw [if_pos hpk, Lexer.next_of_peek hpk] at h
    exact (Except.ok.inj h).symm
  · rename_i hpk
    right
    exact ⟨hpk, (Except.ok.inj h).symm⟩

/-- Helper: the colon step succeeds exactly by consuming a peeked ':'. -/
theorem phaseColon_shape {tks : List Token} {st : Lexer} {q : List Token × Lexer}
    (h : Lexer.lexPhaseColon (tks, st) = Except.ok q) :
    st.peek = some ':' ∧ q = (tks, { st with position := st.position + 1 }) := by
  unfold Lexer.lexPhaseColon at h
  simp only [] at h
  rcases hn : st.next with ⟨oc, st1⟩
  rw [hn] at h
  cases oc with
  | none => cases h
  | some c =>
    simp only [] at h
    split at h
    · rename_i hc
      subst hc
      rcases next_some_inv hn with ⟨hpk, hst⟩
      subst hst
      exact ⟨hpk, (Except.ok.inj h).symm⟩
    · cases h

/-- Helper: the description step succeeds only by appending one
Description token. -/
theorem phaseDescription_shape {tks : List Token} {st : Lexer} {q : List Token × Lexer}
    (h : Lexer.lexPhaseDescription (tks, st) = Except.ok q) :
    ∃ d st1, q = (tks ++ [Token.Description d], st1) := by
  unfold Lexer.lexPhaseDescription at h
  simp only [] at h
  rcases hd : st.lex_description with ⟨res, st1⟩
  rw [hd] at h
  cases res with
  | error e => cases h
  | ok tk =>
    rcases lex_description_ok_shape hd with ⟨d, rfl⟩
    exact ⟨d, st1, (Except.ok.inj h).symm⟩

/-- Helper: the body step appends only Body and Footer tokens. -/
theorem phaseBody_shape {tks : List Token} {st : Lexer} {q : List Token × Lexer}
    (h : Lexer.lexPhaseBody (tks, st) = some q) :
    ∃ extra st1, q = (tks ++ extra, st1) ∧
      ∀ tk ∈ extra, (∃ x, tk = Token.Body x) ∨ (∃ x, tk = Token.Footer x) := by
  unfold Lexer.lexPhaseBody at h
  simp only [] at h
  rcases hb : st.lex_body_and_footer with - | ⟨⟨b, f⟩, st1⟩
  · rw [hb] at h
    cases h
  · rw [hb] at h
    have hshape := lex_body_and_footer_shape hb
    cases b with
    | none =>
      cases f with
      | none =>
        refine ⟨[], st1, ?_, by simp⟩
        simpa using (Option.some.inj h).symm
      | some tkf =>
        rcases hshape.2 tkf rfl with ⟨x, rfl⟩
        refine ⟨[Token.Footer x], st1, ?_, ?_⟩
        · simpa using (Option.some.inj h).symm
        · intro tk htk
          simp only [List.mem_singleton] at htk
          subst htk
          exact Or.inr ⟨x, rfl⟩
    | some tkb =>
      rcases hshape.1 tkb rfl with ⟨x, rfl⟩
      cases f with
      | none =>
        refine ⟨[Token.Body x], st1, ?_, ?_⟩
        · simpa using (Option.some.inj h).symm
        · intro tk htk
          simp only [List.mem_singleton] at htk
          subst htk
          exact Or.inl ⟨x, rfl⟩
      | some tkf =>
        rcases hshape.2 tkf rfl with ⟨y, rfl⟩
        refine ⟨[Token.Body x, Token.Footer y], st1, ?_, ?_⟩
        · have := (Option.some.inj h).symm
          simpa [List.append_assoc] using this
        · intro tk htk
          rcases List.mem_cons.mp htk with rfl | htk
          · exact Or.inl ⟨x, rfl⟩
          · simp only [List.mem_singleton] at htk
            subst htk
            exact Or.inr ⟨y, rfl⟩

/-- Helper: a successful tokenization factors through the five steps. -/
theorem lex_ok_phases {st : Lexer} {ts : List Token}
    (h : st.lex = some (Except.ok ts)) :
    ∃ p1 p2 p3 p4 p5 st5,
      st.lexPhaseType = Except.ok p1 ∧
      Lexer.lexPhaseScope p1 = Except.ok p2 ∧
      Lexer.lexPhaseBreaking p2 = Except.ok p3 ∧
      Lexer.lexPhaseColon p3 = Except.ok p4 ∧
      Lexer.lexPhaseDescription p4 = Except.ok p5 ∧
      Lexer.lexPhaseBody p5 = some (ts, st5) := by
  unfold Lexer.lex at h
  cases h1 : st.lexPhaseType with
  | error e => simp [h1] at h
  | ok p1 =>
  simp only [h1] at h
  cases h2 : Lexer.lexPhaseScope p1 with
  | error e => simp [h2] at h
  | ok p2 =>
  simp only [h2] at h
  cases h3 : Lexer.lexPhaseBreaking p2 with
  | error e => simp [h3] at h
  | ok p3 =>
  simp only [h3] at h
  cases h4 : Lexer.lexPhaseColon p3 with
  | error e => simp [h4] at h
  | ok p4 =>
  simp only [h4] at h
  cases h5 : Lexer.lexPhaseDescription p4 with
  | error e => simp [h5] at h
  | ok p5 =>
  simp only [h5] at h
  cases h6 : Lexer.lexPhaseBody p5 with
  | none => simp [h6] at h
  | some q =>
  rcases q with ⟨ts', st5⟩
  simp only [h6, Option.some.injEq, Except.ok.injEq] at h
  subst h
  exact ⟨p1, p2, p3, p4, p5, st5, rfl, h2, h3, h4, h5, h6⟩

/-- Helper: afterTypeScope composed from successful steps. -/
theorem afterTypeScope_of_phases {st : Lexer} {p1 p2 : List Token × Lexer}
    (h1 : st.lexPhaseType = Except.ok p1) (h2 : Lexer.lexPhaseScope p1 = Except.ok p2) :
    st.afterTypeScope = Except.ok p2 := by
  unfold Lexer.afterTypeScope
  simp only [h1, h2]

/-- Helper: a successful afterTypeScopeBreaking factors through the three
steps. -/
theorem afterTypeScopeBreaking_phases {st : Lexer} {p : List Token × Lexer}
    (h : st.afterTypeScopeBreaking = Except.ok p) :
    ∃ p1 p2, st.lexPhaseType = Except.ok p1 ∧
      Lexer.lexPhaseScope p1 = Except.ok p2 ∧
      Lexer.lexPhaseBreaking p2 = Except.ok p := by
  unfold Lexer.afterTypeScopeBreaking Lexer.afterTypeScope at h
  cases h1 : st.lexPhaseType with
  | error e => simp [h1] at h
  | ok p1 =>
  simp only [h1] at h
  cases h2 : Lexer.lexPhaseScope p1 with
  | error e => simp [h2] at h
  | ok p2 =>
  simp only [h2] at h
  exact ⟨p1, p2, rfl, h2, h⟩

/-- Helper: when the character after the type, scope and marker steps is
not a ':', the whole tokenization fails with the colon error. -/
theorem lex_error_of_no_colon {st : Lexer} {p : List Token × Lexer}
    (h : st.afterTypeScopeBreaking = Except.ok p)
    (hc : (p.2.next).1 ≠ some ':') :
    st.lex = some (Except.error "Expected ':' after commit type or scope") := by
  rcases afterTypeScopeBreaking_phases h with ⟨p1, p2, h1, h2, h3⟩
  have hcol : Lexer.lexPhaseColon p = Except.error "Expected ':' after commit type or scope" := by
    rcases p with ⟨tks, stp⟩
    simp only [] at hc
    unfold Lexer.lexPhaseColon
    simp only []
    rcases hn : stp.next with ⟨oc, st1⟩
    rw [hn] at hc
    simp only [] at hc
    cases oc with
    | none => rfl
    | some c =>
      simp only []
      have hcc : ¬(c = ':') := by
        intro hcc
        rw [hcc] at hc
        exact hc rfl
      rw [if_neg hcc]
  unfold Lexer.lex
  simp only [h1, h2, h3, hcol]

/-- C2 (amended): parse_commit returns a Record exactly when the sequence
holds a CommitType token and a Description token; presence, not
non-emptiness, is what is checked. -/
theorem parse_requires_type_and_description (ts : List Token) :
    (∃ r, parse_commit ts = Except.ok r) ↔
      ((∃ t, Token.CommitType t ∈ ts) ∧ (∃ d, Token.Description d ∈ ts)) := by
  rw [parse_commit_eq]
  cases hT : lastPayload selCommitType ts with
  | none =>
    constructor
    · rintro ⟨r, hr⟩
      simp at hr
    · rintro ⟨⟨t, ht⟩, -⟩
      exact absurd ht ((lastCommitType_eq_none_iff ts).mp hT t)
  | some t =>
    cases hD : lastPayload selDescription ts with
    | none =>
      constructor
      · rintro ⟨r, hr⟩
        simp at hr
      · rintro ⟨-, ⟨d, hd⟩⟩
        exact absurd hd ((lastDescription_eq_none_iff ts).mp hD d)
    | some d =>
      constructor
      · intro _
        exact ⟨⟨t, mem_of_lastCommitType_eq_some hT⟩,
               ⟨d, mem_of_lastDescription_eq_some hD⟩⟩
      · intro _
        exact ⟨_, rfl⟩

/-- C2 counterexample: parse_commit accepts empty payloads (its checks
are only for presence), and the full pipeline itself produces a Record
whose type is the empty string on an input that starts with '('. -/
theorem parse_accepts_empty_type :
    parse_commit [Token.CommitType [], Token.Description []] =
      Except.ok ⟨[], none, false, [], none, none⟩ ∧
    lexParse ("(s): d").toList =
      some (Except.ok ⟨[], some ['s'], false, ['d'], none, none⟩) :=
  ⟨rfl, rfl⟩

/-- C8: the parse fold is last-write-wins per token kind: every field of
a returned Record is the payload of the last token of that kind (read
with lastPayload, the first hit in the reversed sequence), and the
breaking flag is set exactly when some marker occurs. -/
theorem parse_fold_last_write_wins (ts : List Token) (r : ConventionalCommit)
    (h : parse_commit ts = Except.ok r) :
    lastPayload selCommitType ts = some r.commit_type ∧
    r.scope = lastPayload selScope ts ∧
    r.breaking_change = ts.any Token.isBreaking ∧
    lastPayload selDescription ts = some r.description ∧
    r.body = lastPayload selBody ts ∧
    r.footer = lastPayload selFooter ts := by
  rw [parse_commit_eq] at h
  cases hT : lastPayload selCommitType ts with
  | none =>
    rw [hT] at h
    simp at h
  | some t =>
    cases hD : lastPayload selDescription ts with
    | none =>
      rw [hT, hD] at h
      simp at h
    | some d =>
      rw [hT, hD] at h
      have hr := Except.ok.inj h
      subst hr
      exact ⟨rfl, rfl, rfl, rfl, rfl, rfl⟩

/-- C8 witness: a sequence with two Description tokens; the Record holds
the second one. -/
theorem parse_fold_last_write_wins_witness :
    lastPayload selCommitType exampleDupTokens = some exampleDupRecord.commit_type ∧
    exampleDupRecord.scope = lastPayload selScope exampleDupTokens ∧
    exampleDupRecord.breaking_change = exampleDupTokens.any Token.isBreaking ∧
    lastPayload selDescription exampleDupTokens = some exampleDupRecord.description ∧
    exampleDupRecord.body = lastPayload selBody exampleDupTokens ∧
    exampleDupRecord.footer = lastPayload selFooter exampleDupTokens :=
  parse_fold_last_write_wins exampleDupTokens exampleDupRecord (by decide)

/-- C9: parse_commit fails with the commit-type error on any sequence
with no CommitType token, and with the description error on any sequence
with a CommitType token but no Description token: the type is checked
first. -/
theorem parse_missing_errors :
    (∀ ts : List Token, (∀ t, Token.CommitType t ∉ ts) →
        parse_commit ts = Except.error "Missing commit type") ∧
    (∀ ts : List Token, (∃ t, Token.CommitType t ∈ ts) →
        (∀ d, Token.Description d ∉ ts) →
        parse_commit ts = Except.error "Missing description") := by
  constructor
  · intro ts h
    rw [parse_commit_eq, (lastCommitType_eq_none_iff ts).mpr h]
  · rintro ts ⟨t, ht⟩ h
    rw [parse_commit_eq, (lastDescription_eq_none_iff ts).mpr h]
    cases hT : lastPayload selCommitType ts with
    | none => exact absurd ht ((lastCommitType_eq_none_iff ts).mp hT t)
    | some u => rfl

/-- C3: the model records the source's panic: on "t: á" the description
loop leaves the cursor at character count 4, which lands inside the
two-byte encoding of 'á' when used as a byte offset, so the byte slice of
lex_body_and_footer is off a character boundary and tokenization has no
result at all. -/
theorem lex_panics_on_multibyte : (Lexer.new ("t: á").toList).lex = none := rfl

/-- C10: on the shaped input "t: éx" the cursor (a character count) used
as a byte offset lands on the 'x' inside the already-consumed
description, so the code emits a spurious Body token instead of leaving
the body absent; the token-sequence half of the claim does hold. -/
theorem lexParse_shaped_input_body_bug :
    (∀ t d : List Char, parse_commit [Token.CommitType t, Token.Description d] =
        Except.ok ⟨t, none, false, d, none, none⟩) ∧
    lexParse ("t: éx").toList =
      some (Except.ok ⟨("t").toList, none, false, ("éx").toList,
        some (("x").toList), none⟩) :=
  ⟨fun _ _ => rfl, rfl⟩

/-- C5: lex_description skips leading whitespace, accumulates to the
first newline or end of input, and fails exactly when that text is empty;
in particular "feat: " fails with the missing-description error. -/
theorem scan_description_spec :
    (∀ st : Lexer, (st.lex_description).1 =
        if descriptionOf st = [] then Except.error "Missing description"
        else Except.ok (Token.Description (descriptionOf st))) ∧
    (Lexer.new ("feat: ").toList).lex = some (Except.error "Missing description") := by
  constructor
  · intro st
    have hd : (descriptionScan (((st.skip_whitespace).input).drop
        (st.skip_whitespace).position)).1 = descriptionOf st := by
      rw [Lexer.skip_whitespace_input, Lexer.skip_whitespace_drop, descriptionScan_fst]
      rfl
    unfold Lexer.lex_description
    simp only []
    split
    · rename_i hcond
      rw [hd] at hcond
      rw [if_neg (by simpa using hcond), hd]
    · rename_i hcond
      rw [hd] at hcond
      rw [if_pos (by simpa using hcond)]
  · rfl

/-- Helper: the scope field of a returned Record is the last Scope
payload. -/
theorem parse_ok_scope_eq {ts : List Token} {r : ConventionalCommit}
    (h : parse_commit ts = Except.ok r) : r.scope = lastPayload selScope ts := by
  rw [parse_commit_eq] at h
  cases hT : lastPayload selCommitType ts with
  | none => rw [hT] at h; simp at h
  | some t =>
    cases hD : lastPayload selDescription ts with
    | none => rw [hT, hD] at h; simp at h
    | some d =>
      rw [hT, hD] at h
      rw [← Except.ok.inj h]

/-- Helper: the breaking flag of a returned Record is set exactly by a
marker in the sequence. -/
theorem parse_ok_breaking_eq {ts : List Token} {r : ConventionalCommit}
    (h : parse_commit ts = Except.ok r) : r.breaking_change = ts.any Token.isBreaking := by
  rw [parse_commit_eq] at h
  cases hT : lastPayload selCommitType ts with
  | none => rw [hT] at h; simp at h
  | some t =>
    cases hD : lastPayload selDescription ts with
    | none => rw [hT, hD] at h; simp at h
    | some d =>
      rw [hT, hD] at h
      rw [← Except.ok.inj h]

/-- Helper: appending tokens a selector rejects does not change the last
payload. -/
theorem lastPayload_append_none (sel : Token → Option (List Char))
    (l1 l2 : List Token) (h : ∀ x ∈ l2, sel x = none) :
    lastPayload sel (l1 ++ l2) = lastPayload sel l1 := by
  unfold lastPayload
  rw [List.reverse_append]
  exact findSome?_append_of_none sel _ _ (fun x hx => h x (List.mem_reverse.mp hx))

/-- Helper: Body and Footer tokens are not the breaking marker. -/
theorem any_isBreaking_false_of_body_footer {extra : List Token}
    (hsh : ∀ tk ∈ extra, (∃ x, tk = Token.Body x) ∨ (∃ x, tk = Token.Footer x)) :
    extra.any Token.isBreaking = false := by
  rw [List.any_eq_false]
  intro tk htk
  rcases hsh tk htk with ⟨x, rfl⟩ | ⟨x, rfl⟩ <;> simp [Token.isBreaking]

/-- Helper: Body and Footer tokens carry no scope payload. -/
theorem selScope_none_of_body_footer {extra : List Token}
    (hsh : ∀ tk ∈ extra, (∃ x, tk = Token.Body x) ∨ (∃ x, tk = Token.Footer x)) :
    ∀ tk ∈ extra, selScope tk = none := by
  intro tk htk
  rcases hsh tk htk with ⟨x, rfl⟩ | ⟨x, rfl⟩ <;> rfl

/-- C6: whenever the character after the commit type, the optional scope
and the optional breaking marker is not a ':', tokenization fails with
the colon error (and when it is a ':', the colon step consumes exactly
it); in particular "feat add a new feature" fails so. -/
theorem lex_expected_colon :
    (∀ (st : Lexer) (p : List Token × Lexer),
        st.afterTypeScopeBreaking = Except.ok p →
        (p.2.next).1 ≠ some ':' →
        st.lex = some (Except.error "Expected ':' after commit type or scope")) ∧
    (∀ (tks : List Token) (st : Lexer) (q : List Token × Lexer),
        Lexer.lexPhaseColon (tks, st) = Except.ok q →
        st.peek = some ':' ∧ q = (tks, { st with position := st.position + 1 })) ∧
    (Lexer.new ("feat add a new feature").toList).lex =
      some (Except.error "Expected ':' after commit type or scope") :=
  ⟨fun _ _ h hc => lex_error_of_no_colon h hc,
   fun _ _ _ h => phaseColon_shape h,
   rfl⟩

/-- C4: for a successfully tokenized and parsed input, the Record's
breaking flag is true exactly when a '!' sits at the cursor after the
type and optional scope, immediately followed by the separating ':'. -/
theorem breaking_flag_iff (st : Lexer) (p : List Token × Lexer) (ts : List Token)
    (r : ConventionalCommit)
    (hts : st.afterTypeScope = Except.ok p)
    (hlex : st.lex = some (Except.ok ts))
    (hparse : parse_commit ts = Except.ok r) :
    r.breaking_change = true ↔
      (p.2.peek = some '!' ∧ p.2.input[p.2.position + 1]? = some ':') := by
  rcases lex_ok_phases hlex with ⟨p1, p2, p3, p4, p5, st5, h1, h2, h3, h4, h5, h6⟩
  have hp : p = p2 := by
    have h' := afterTypeScope_of_phases h1 h2
    rw [hts] at h'
    exact Except.ok.inj h'
  subst hp
  obtain ⟨t0, stA, hp1, -⟩ := phaseType_shape h1
  subst hp1
  rcases p with ⟨tks2, st2⟩
  have hno2 : tks2.any Token.isBreaking = false := by
    rcases phaseScope_shape h2 with ⟨-, s0, stB, hq2, -⟩ | ⟨-, hq2⟩
    · injection hq2 with ha hb
      rw [ha]
      rfl
    · injection hq2 with ha hb
      rw [ha]
      rfl
  rcases p3 with ⟨tks3, st3⟩
  rcases p4 with ⟨tks4, st4⟩
  obtain ⟨hcol, hq4⟩ := phaseColon_shape h4
  injection hq4 with htks4 hst4
  rcases p5 with ⟨tks5, st5'⟩
  obtain ⟨d0, stD, hp5⟩ := phaseDescription_shape h5
  injection hp5 with htks5 hst5'
  obtain ⟨extra, stE, hq6, hextra⟩ := phaseBody_shape h6
  injection hq6 with hts_eq hst5
  have hbrk := parse_ok_breaking_eq hparse
  have hany : ts.any Token.isBreaking = tks3.any Token.isBreaking := by
    rw [hts_eq, htks5, htks4]
    rw [List.any_append, List.any_append,
      any_isBreaking_false_of_body_footer hextra]
    simp [Token.isBreaking]
  rcases phaseBreaking_shape h3 with ⟨hbang, hq3⟩ | ⟨hbang, hq3⟩
  · injection hq3 with htks3 hst3
    have hcolon2 : st2.input[st2.position + 1]? = some ':' := by
      rw [hst3] at hcol
      simpa [Lexer.peek] using hcol
    have hbtrue : ts.any Token.isBreaking = true := by
      rw [hany, htks3, List.any_append, hno2]
      rfl
    rw [hbrk, hbtrue]
    simp only [true_iff]
    exact ⟨hbang, hcolon2⟩
  · injection hq3 with htks3 hst3
    have hbfalse : ts.any Token.isBreaking = false := by
      rw [hany, htks3, hno2]
    rw [hbrk, hbfalse]
    constructor
    · intro h
      cases h
    · rintro ⟨hb, -⟩
      exact absurd hb hbang

/-- C4 witness: scenario 4 of the spec, "refactor(core)!: refactor core
functionality": after "refactor(core)" the cursor sees '!' then ':', and
the parsed record is breaking. -/
theorem breaking_flag_iff_witness :
    exampleBreakingRecord.breaking_change = true ↔
      (exampleBreakingState.peek = some '!' ∧
       exampleBreakingState.input[exampleBreakingState.position + 1]? = some ':') :=
  breaking_flag_iff (Lexer.new exampleBreakingInput)
    ([Token.CommitType ("refactor").toList, Token.Scope ("core").toList],
      exampleBreakingState)
    [Token.CommitType ("refactor").toList, Token.Scope ("core").toList,
      Token.BreakingChangeMarker,
      Token.Description ("refactor core functionality").toList]
    exampleBreakingRecord (by decide) (by decide) (by decide)

/-- C7: lex_scope, entered at a '(', consumes it and everything up to and
including the first ')', and returns exactly the interior text (possibly
empty) as the Scope payload, failing with the unclosed-scope error when
no ')' remains; consequently, on every shaped input
type(scope): description that tokenizes and parses, the Record's scope is
the exact text between the parentheses. -/
theorem scan_scope_spec :
    (∀ st : Lexer, st.peek = some '(' →
      ((')' ∈ st.input.drop (st.position + 1) →
         st.lex_scope =
           (Except.ok (Token.Scope
              ((st.input.drop (st.position + 1)).takeWhile (fun c => c ≠ ')'))),
            { st with position := st.position + 1 +
              (((st.input.drop (st.position + 1)).takeWhile (fun c => c ≠ ')')).length + 1) })) ∧
       (')' ∉ st.input.drop (st.position + 1) →
         st.lex_scope =
           (Except.error "Unclosed scope",
            { st with position := st.position + 1 +
              (st.input.drop (st.position + 1)).length })))) ∧
    (∀ (t s rest : List Char) (ts : List Token) (r : ConventionalCommit),
        t.all char_is_alphanumeric = true → ')' ∉ s →
        (Lexer.new (t ++ '(' :: (s ++ ')' :: rest))).lex = some (Except.ok ts) →
        parse_commit ts = Except.ok r →
        r.scope = some s) := by
  constructor
  · intro st hpk
    constructor
    · intro hmem
      unfold Lexer.lex_scope
      rw [Lexer.next_of_peek hpk]
      simp only [if_pos rfl]
      rw [scopeScan_of_mem _ hmem]
      simp
    · intro hmem
      unfold Lexer.lex_scope
      rw [Lexer.next_of_peek hpk]
      simp only [if_pos rfl]
      rw [scopeScan_of_not_mem _ hmem]
      simp
  · intro t s rest ts r hall hnotin hlex hparse
    have hskip : skipWsCount (t ++ '(' :: (s ++ ')' :: rest)) = 0 := by
      cases t with
      | nil => rfl
      | cons c t' =>
        have hc : char_is_alphanumeric c = true := by
          rw [List.all_cons, Bool.and_eq_true] at hall
          exact hall.1
        simp [skipWsCount, alnum_not_ws hc]
    have h1 : (Lexer.new (t ++ '(' :: (s ++ ')' :: rest))).lexPhaseType =
        Except.ok ([Token.CommitType t],
          ⟨t ++ '(' :: (s ++ ')' :: rest), t.length⟩) := by
      unfold Lexer.lexPhaseType Lexer.lex_commit_type Lexer.new Lexer.skip_whitespace
      simp [hskip, commitTypeScan_append_paren _ _ hall]
    have hpeek : (⟨t ++ '(' :: (s ++ ')' :: rest), t.length⟩ : Lexer).peek = some '(' := by
      show (t ++ '(' :: (s ++ ')' :: rest))[t.length]? = some '('
      exact getElem?_append_cons t '(' (s ++ ')' :: rest)
    have h2 : Lexer.lexPhaseScope ([Token.CommitType t],
          ⟨t ++ '(' :: (s ++ ')' :: rest), t.length⟩) =
        Except.ok ([Token.CommitType t, Token.Scope s],
          ⟨t ++ '(' :: (s ++ ')' :: rest), t.length + 1 + (s.length + 1)⟩) := by
      unfold Lexer.lexPhaseScope
      simp only [if_pos hpeek]
      unfold Lexer.lex_scope
      rw [Lexer.next_of_peek hpeek]
      simp only [if_pos rfl]
      rw [show (⟨t ++ '(' :: (s ++ ')' :: rest), t.length⟩ : Lexer).input.drop
            (t.length + 1) = s ++ ')' :: rest from drop_append_cons t '(' _]
      rw [scopeScan_append_close s rest hnotin]
      simp
    rcases lex_ok_phases hlex with ⟨p1, p2, p3, p4, p5, st5, g1, g2, g3, g4, g5, g6⟩
    rw [h1] at g1
    have hp1 := (Except.ok.inj g1).symm
    subst hp1
    rw [h2] at g2
    have hp2 := (Except.ok.inj g2).symm
    subst hp2
    rcases p3 with ⟨tks3, st3⟩
    rcases p4 with ⟨tks4, st4⟩
    obtain ⟨-, hq4⟩ := phaseColon_shape g4
    injection hq4 with htks4 hst4
    rcases p5 with ⟨tks5, st5'⟩
    obtain ⟨d0, stD, hp5⟩ := phaseDescription_shape g5
    injection hp5 with htks5 hst5'
    obtain ⟨extra, stE, hq6, hextra⟩ := phaseBody_shape g6
    injection hq6 with hts_eq hst5
    have hsc := parse_ok_scope_eq hparse
    have htks3 : lastPayload selScope tks3 = some s := by
      rcases phaseBreaking_shape g3 with ⟨-, hq3⟩ | ⟨-, hq3⟩
      · injection hq3 with htk hsts
        rw [htk]
        rw [lastPayload_append_none selScope _ [Token.BreakingChangeMarker]
          (by intro x hx; rcases List.mem_singleton.mp hx with rfl; rfl)]
        rfl
      · injection hq3 with htk hsts
        rw [htk]
        rfl
    rw [hsc, hts_eq, htks5, htks4]
    rw [lastPayload_append_none selScope _ extra (selScope_none_of_body_footer hextra)]
    rw [lastPayload_append_none selScope _ [Token.Description d0]
      (by intro x hx; rcases List.mem_singleton.mp hx with rfl; rfl)]
    exact htks3

/-- C1 (amended): lex_body_and_footer splits the remainder at the first
occurrence of "BREAKING CHANGE:" whenever that marker occurs anywhere,
otherwise at the first occurrence of "Reviewed-by:", otherwise at the
first occurrence of "Refs:" — declaration-order priority across markers,
leftmost only within one marker. The text before the chosen occurrence,
trimmed, is the Body token (omitted when empty); from it onward, trimmed,
the Footer token. -/
theorem scan_body_footer_priority_split :
    (∀ (r : List Char) (i : Nat),
        chosenMarkerIndex r = some i ↔
          ((markerBreakingChange.isPrefixOf (r.drop i) = true ∧
              ∀ j < i, markerBreakingChange.isPrefixOf (r.drop j) = false) ∨
           ((∀ j, markerBreakingChange.isPrefixOf (r.drop j) = false) ∧
              markerReviewedBy.isPrefixOf (r.drop i) = true ∧
              (∀ j < i, markerReviewedBy.isPrefixOf (r.drop j) = false)) ∨
           ((∀ j, markerBreakingChange.isPrefixOf (r.drop j) = false) ∧
              (∀ j, markerReviewedBy.isPrefixOf (r.drop j) = false) ∧
              markerRefs.isPrefixOf (r.drop i) = true ∧
              (∀ j < i, markerRefs.isPrefixOf (r.drop j) = false)))) ∧
    (∀ (st : Lexer) (rem : List Char) (i : Nat),
        byteDrop (st.skip_whitespace).input (st.skip_whitespace).position = some rem →
        chosenMarkerIndex rem = some i →
        st.lex_body_and_footer =
          some (((if trim (rem.take i) ≠ [] then some (Token.Body (trim (rem.take i)))
                  else none),
                 some (Token.Footer (trim (rem.drop i)))), st.skip_whitespace)) := by
  constructor
  · intro r i
    unfold chosenMarkerIndex
    cases hB : findSub r markerBreakingChange with
    | some m =>
      simp only []
      constructor
      · intro h
        obtain rfl : m = i := Option.some.inj h
        exact Or.inl ((findSub_eq_some_iff r markerBreakingChange m).mp hB)
      · rintro (⟨h1, h2⟩ | ⟨hno, -⟩ | ⟨hno, -⟩)
        · have := (findSub_eq_some_iff r markerBreakingChange i).mpr ⟨h1, h2⟩
          rw [hB] at this
          exact this
        · exfalso
          have := (findSub_eq_none_iff r markerBreakingChange).mpr hno
          rw [hB] at this
          cases this
        · exfalso
          have := (findSub_eq_none_iff r markerBreakingChange).mpr hno
          rw [hB] at this
          cases this
    | none =>
      have hBn := (findSub_eq_none_iff r markerBreakingChange).mp hB
      simp only []
      cases hR : findSub r markerReviewedBy with
      | some m =>
        simp only []
        constructor
        · intro h
          obtain rfl : m = i := Option.some.inj h
          have hs := (findSub_eq_some_iff r markerReviewedBy m).mp hR
          exact Or.inr (Or.inl ⟨hBn, hs.1, hs.2⟩)
        · rintro (⟨h1, -⟩ | ⟨-, h1, h2⟩ | ⟨-, hnoR, -⟩)
          · rw [hBn i] at h1
            cases h1
          · have := (findSub_eq_some_iff r markerReviewedBy i).mpr ⟨h1, h2⟩
            rw [hR] at this
            exact this
          · exfalso
            have := (findSub_eq_none_iff r markerReviewedBy).mpr hnoR
            rw [hR] at this
            cases this
      | none =>
        have hRn := (findSub_eq_none_iff r markerReviewedBy).mp hR
        simp only []
        rw [findSub_eq_some_iff]
        constructor
        · rintro ⟨h1, h2⟩
          exact Or.inr (Or.inr ⟨hBn, hRn, h1, h2⟩)
        · rintro (⟨h1, -⟩ | ⟨-, h1, -⟩ | ⟨-, -, h1, h2⟩)
          · rw [hBn i] at h1
            cases h1
          · rw [hRn i] at h1
            cases h1
          · exact ⟨h1, h2⟩
  · intro st rem i hr hi
    unfold Lexer.lex_body_and_footer
    simp only []
    rw [hr]
    simp only []
    rw [hi]

/-- C1 counterexample: when "Reviewed-by:" occurs at offset 0 and
"BREAKING CHANGE:" at offset 15, the code splits at 15 (marker priority),
emitting a Body token, while the earliest-occurrence split of the claim
splits at 0 and emits no Body. -/
theorem scan_body_footer_not_leftmost :
    Lexer.lex_body_and_footer (Lexer.new priorityInput) =
      some ((some (Token.Body (("Reviewed-by: A").toList)),
             some (Token.Footer (("BREAKING CHANGE: b").toList))),
            Lexer.new priorityInput) ∧
    spec_scan_body_and_footer priorityInput =
      (none, some (Token.Footer priorityInput)) ∧
    ((some (Token.Body (("Reviewed-by: A").toList)),
      some (Token.Footer (("BREAKING CHANGE: b").toList))) : Option Token × Option Token) ≠
      (none, some (Token.Footer priorityInput)) :=
  ⟨rfl, by decide, by decide⟩
